import Mathlib

/-!
Verification development for the markdown-to-Feishu document converter in
`nanobot/skills/feishu/scripts/feishu_doc.py` (class `FeishuDoc`).

Strings are modelled as `List Char` (`Str`).  Each Python helper is embedded
as an executable Lean function carrying the source's name (leading
underscores dropped):

* `parse_inline_formatting`  — `_parse_inline_formatting`
* `make_text_elements` / `make_text_obj` — `_make_text_elements` / `_make_text_obj`
* `markdown_to_blocks`      — `_markdown_to_blocks`
* `blocks_to_feishu_json`   — `_blocks_to_feishu_json`
* `write_children_batch`    — `_write_children_batch`
* `create_table_block`      — `_create_table_block`
* `write_table_as_text`     — `_write_table_as_text`
* `write_document_content`  — `write_document_content`

The remote transport (`self.api.post`) is modelled as an oracle: a list of
optional responses consumed one per request (`none` = the transport returned
nil / a falsy result).  Each embedded writer returns, besides the values the
Python code returns, the ordered trace of requests it issued and the numbers
it reports, so that claims about requests and reported counts are statable.
-/

abbrev Str := List Char

/-- The backtick character (code 96), written via `Char.ofNat`. -/
def backtickChar : Char := Char.ofNat 96

/-- The one-character backtick string used as the inline-code delimiter. -/
def backtickStr : Str := [backtickChar]

/-- Python `str` whitespace test restricted to the ASCII whitespace
characters relevant to this code base (`\s` and `.strip()`). -/
def isPySpace (c : Char) : Bool :=
  c = ' ' || c = '\t' || c = '\n' || c = '\r' || c = Char.ofNat 11 || c = Char.ofNat 12

/-- Python `line.rstrip()`. -/
def pyRstrip (l : Str) : Str := (l.reverse.dropWhile isPySpace).reverse

/-- Python `line.lstrip()`. -/
def pyLstrip (l : Str) : Str := l.dropWhile isPySpace

/-- Python `line.strip()`. -/
def pyStrip (l : Str) : Str := pyLstrip (pyRstrip l)

/-- Python `s.split(sep)` for a one-character separator: keeps empty pieces,
and `"".split(sep) = [""]`. -/
def splitOnChar (sep : Char) : Str → List Str
  | [] => [[]]
  | c :: rest =>
    if c = sep then [] :: splitOnChar sep rest
    else
      match splitOnChar sep rest with
      | [] => [[c]]
      | l :: ls => (c :: l) :: ls

/-- Python `markdown.split('\n')`. -/
def splitLines (markdown : Str) : List Str := splitOnChar '\n' markdown

/-- Python substring membership `pat in s`. -/
def containsSub (pat : Str) : Str → Bool
  | [] => pat.isEmpty
  | c :: rest => pat.isPrefixOf (c :: rest) || containsSub pat rest

/-- Python `int(...)` on a nonempty decimal digit string. -/
def natOfDigits (ds : Str) : Nat := ds.foldl (fun n c => 10 * n + (c.toNat - 48)) 0

/-! ## Inline span parser (`_parse_inline_formatting`, lines 579-638)

The regex alternation
`***x*** | **x** | *x* | `x` | ~~x~~ | [t](u)`
is scanned with `re.finditer`: the engine tries the whole pattern at each
position left to right, alternatives in order; `(.+?)` is non-greedy
(shortest nonempty content, not crossing a newline). -/

/-- One styled run, mirroring the `{"text": ..., "style": ...}` segment
dicts built by `_parse_inline_formatting` (a `link` segment also carries
`"url"`). -/
inductive Style
  | plain
  | bold_italic
  | bold
  | italic
  | code
  | strikethrough
  | link (url : Str)
deriving DecidableEq

structure Segment where
  text : Str
  style : Style
deriving DecidableEq

/-- Non-greedy search for `(.+?)` followed by `closer`: the shortest
nonempty newline-free content such that `closer` follows; returns the
content and the remainder after the closer. -/
def findClose (closer : Str) : Str → Option (Str × Str)
  | [] => none
  | c :: rest =>
    if c = '\n' then none
    else if closer.isPrefixOf rest then some ([c], rest.drop closer.length)
    else
      match findClose closer rest with
      | some (content, after) => some (c :: content, after)
      | none => none

/-- One delimiter-wrapped alternative `opener (.+?) closer` anchored at the
start of `l`. -/
def tryDelim (opener closer : Str) (l : Str) : Option (Str × Str) :=
  if opener.isPrefixOf l then findClose closer (l.drop opener.length)
  else none

/-- The link alternative `\[([^\]]+)\]\(([^)]+)\)` anchored at the start of
`l`: bracketed nonempty text, then a parenthesised nonempty url. -/
def tryLink (l : Str) : Option (Str × Str × Str) :=
  match l with
  | c0 :: rest =>
    if c0 = '[' then
      let txt := rest.takeWhile (fun c => c ≠ ']')
      if txt.isEmpty then none
      else
        match rest.drop txt.length with
        | c1 :: c2 :: rest2 =>
          if c1 = ']' && c2 = '(' then
            let url := rest2.takeWhile (fun c => c ≠ ')')
            if url.isEmpty then none
            else
              match rest2.drop url.length with
              | c3 :: after => if c3 = ')' then some (txt, url, after) else none
              | [] => none
          else none
        | _ => none
    else none
  | [] => none

/-- Attempt the whole alternation at the current position, alternatives in
the order they appear in the Python pattern.  Returns the styled segment
and the remainder after the match. -/
def tryMatch (l : Str) : Option (Segment × Str) :=
  match tryDelim ("***".toList) ("***".toList) l with
  | some (c, after) => some (⟨c, .bold_italic⟩, after)
  | none =>
  match tryDelim ("**".toList) ("**".toList) l with
  | some (c, after) => some (⟨c, .bold⟩, after)
  | none =>
  match tryDelim ("*".toList) ("*".toList) l with
  | some (c, after) => some (⟨c, .italic⟩, after)
  | none =>
  match tryDelim backtickStr backtickStr l with
  | some (c, after) => some (⟨c, .code⟩, after)
  | none =>
  match tryDelim ("~~".toList) ("~~".toList) l with
  | some (c, after) => some (⟨c, .strikethrough⟩, after)
  | none =>
  match tryLink l with
  | some (t, u, after) => some (⟨t, .link u⟩, after)
  | none => none

/-- The `finditer` loop: scan positions left to right; text before a match
is emitted as a `plain` segment, the match as its styled segment.  `acc`
holds the pending plain characters in reverse.  `fuel` bounds the number of
steps; each step consumes at least one character, so `fuel = l.length`
never runs out (the fuel-exhausted arm dumps the remainder as plain text
and is unreachable from the wrappers below). -/
def scanAux : Nat → Str → Str → List Segment
  | _, acc, [] => if acc.isEmpty then [] else [⟨acc.reverse, .plain⟩]
  | 0, acc, l => [⟨acc.reverse ++ l, .plain⟩]
  | fuel+1, acc, c :: rest =>
    match tryMatch (c :: rest) with
    | some (seg, after) =>
      if acc.isEmpty then seg :: scanAux fuel [] after
      else ⟨acc.reverse, .plain⟩ :: seg :: scanAux fuel [] after
    | none => scanAux fuel (c :: acc) rest

/-- Return value of `_parse_inline_formatting`: either
`{"content": text, "format": "plain"}` (no segment matched) or
`{"content": text, "format": "rich", "segments": [...]}`. -/
inductive FormattedText
  | plain (content : Str)
  | rich (content : Str) (segments : List Segment)
deriving DecidableEq

/-- `_parse_inline_formatting` (feishu_doc.py lines 579-638). -/
def parse_inline_formatting (text : Str) : FormattedText :=
  let segments := scanAux text.length [] text
  if segments.isEmpty then .plain text else .rich text segments

/-- The spans denoted by a `_parse_inline_formatting` result: the segment
list in the rich case; the plain-format dict denotes a single plain span
holding the whole content. -/
def spansOf : FormattedText → List Segment
  | .plain c => [⟨c, .plain⟩]
  | .rich _ segs => segs

/-- Re-insert the markup delimiters a segment's style stripped. -/
def styleWrap : Segment → Str
  | ⟨t, .plain⟩ => t
  | ⟨t, .bold_italic⟩ => "***".toList ++ t ++ "***".toList
  | ⟨t, .bold⟩ => "**".toList ++ t ++ "**".toList
  | ⟨t, .italic⟩ => "*".toList ++ t ++ "*".toList
  | ⟨t, .code⟩ => backtickStr ++ t ++ backtickStr
  | ⟨t, .strikethrough⟩ => "~~".toList ++ t ++ "~~".toList
  | ⟨t, .link u⟩ => "[".toList ++ t ++ "]".toList ++ "(".toList ++ u ++ ")".toList

/-- Concatenation of the spans with their markup delimiters re-inserted. -/
def reconstruct (segs : List Segment) : Str :=
  segs.foldr (fun s acc => styleWrap s ++ acc) []

/-- Concatenation of the bare span contents (delimiters stripped). -/
def concatSpans (segs : List Segment) : Str :=
  segs.foldr (fun s acc => s.text ++ acc) []

/-- Decidable check that no alternative of the inline pattern matches at
any position of `l`. -/
def noInlineMatch (l : Str) : Bool :=
  (List.range (l.length + 1)).all (fun k => (tryMatch (l.drop k)).isNone)

/-! ## Block scanner (`_markdown_to_blocks`, lines 373-577) -/

/-- The `data.text` payload of a paragraph block: the code stores either the
raw line string (unclosed code fence, line 503) or the dict returned by
`_parse_inline_formatting` (line 567). -/
inductive PText
  | raw (s : Str)
  | fmt (f : FormattedText)
deriving DecidableEq

/-- Internal block records (`{"type": ..., "data": {...}}`). -/
inductive Block
  | heading (level : Nat) (text : Str)
  | paragraph (text : PText)
  | bullet_list (items : List Str)
  | ordered_list (items : List Str)
  | code (language : Str) (code : Str)
  | quote (text : Str)
  | divider
  | table (headers : List Str) (rows : List (List Str))
deriving DecidableEq

/-- Models `\s+(.+)$` (with `$` at end of a newline-free line), including
the backtracking case where the text begins inside a whitespace run of
length at least two. -/
def wsSplitText (s : Str) : Option Str :=
  let run := s.takeWhile isPySpace
  let rest := s.drop run.length
  if run.isEmpty then none
  else if !rest.isEmpty then some rest
  else if 2 ≤ run.length then some (s.drop (run.length - 1))
  else none

/-- `re.match(r'^(#{1,6})\s+(.+)$', line)` (line 396): level and text. -/
def headingMatch (line : Str) : Option (Nat × Str) :=
  let k := (line.takeWhile (fun c => c = '#')).length
  if 1 ≤ k && k ≤ 6 then (wsSplitText (line.drop k)).map (fun t => (k, t))
  else none

/-- `re.match(r'^[-*_]{3,}\s*$', line)` (line 412).  Note the character
class admits a mix of the three characters. -/
def isDividerLine (line : Str) : Bool :=
  let run := line.takeWhile (fun c => c = '-' || c = '*' || c = '_')
  3 ≤ run.length && (line.drop run.length).all isPySpace

/-- `re.match(r'^[-*+]\s+(.+)$', line)` (lines 421, 429): the item text. -/
def bulletMatch (l : Str) : Option Str :=
  match l with
  | c :: rest => if c = '-' || c = '*' || c = '+' then wsSplitText rest else none
  | [] => none

/-- `re.match(r'^(\d+)\.\s+(.+)$', line)` (lines 448, 461): leading number
and item text. -/
def orderedMatch (l : Str) : Option (Nat × Str) :=
  let digits := l.takeWhile Char.isDigit
  if digits.isEmpty then none
  else
    match l.drop digits.length with
    | c :: rest =>
      if c = '.' then (wsSplitText rest).map (fun t => (natOfDigits digits, t))
      else none
    | [] => none

mutual

/-- State after the leading digit run of `^\d+(\.\d+)+\s+`: expecting `.`
or more digits; no group completed yet. -/
def subsecFromDigits : Str → Bool
  | [] => false
  | c :: rest =>
    if c.isDigit then subsecFromDigits rest
    else if c = '.' then subsecAfterDot rest
    else false

/-- After a `.`: the group needs at least one digit. -/
def subsecAfterDot : Str → Bool
  | [] => false
  | c :: rest => if c.isDigit then subsecInGroup rest else false

/-- Inside the digits of a completed group: more digits, another group, or
the required trailing whitespace. -/
def subsecInGroup : Str → Bool
  | [] => false
  | c :: rest =>
    if c.isDigit then subsecInGroup rest
    else if c = '.' then subsecAfterDot rest
    else isPySpace c

end

/-- `re.match(r'^\d+(\.\d+)+\s+', line.strip())` (line 454): a multi-level
subsection number such as `6.1 `. -/
def isSubsection (s : Str) : Bool :=
  match s with
  | [] => false
  | c :: rest => c.isDigit && subsecFromDigits rest

/-- `[cell.strip() for cell in line.split('|') if cell.strip()]` (line 532). -/
def pipeCells (line : Str) : List Str :=
  ((splitOnChar '|' line).map pyStrip).filter (fun c => !c.isEmpty)

/-- Continuation test of the paragraph collector (line 560):
`lines[j].strip() and not re.match(r'^[#\-*+>]', lines[j].strip())`. -/
def paraCont (l : Str) : Bool :=
  let s := pyStrip l
  match s with
  | [] => false
  | c :: _ => !(c = '#' || c = '-' || c = '*' || c = '+' || c = '>')

/-- The scanning loop of `_markdown_to_blocks`: one iteration per
dispatched line group, mirroring the Python `while i < len(lines)` loop.
`fuel` bounds the number of iterations; every iteration consumes at least
one line, so `fuel = lines.length` suffices (the fuel-exhausted arm is
unreachable from `markdown_to_blocks`). -/
def blocksLoop : Nat → List Str → List Block
  | _, [] => []
  | 0, _ => []
  | fuel+1, rawLine :: rest =>
    let line := pyRstrip rawLine
    -- blank line: skip (lines 391-393)
    if line.isEmpty then blocksLoop fuel rest
    else
      -- heading (lines 396-409)
      match headingMatch line with
      | some kt => Block.heading kt.1 kt.2 :: blocksLoop fuel rest
      | none =>
      -- divider (lines 412-418)
      if isDividerLine line then Block.divider :: blocksLoop fuel rest
      else
      -- bullet list (lines 421-443), continuation matched on raw lines
      match bulletMatch line with
      | some text =>
        let items := text ::
          (rest.takeWhile (fun l => (bulletMatch l).isSome)).map
            (fun l => (bulletMatch l).getD [])
        Block.bullet_list items ::
          blocksLoop fuel (rest.dropWhile (fun l => (bulletMatch l).isSome))
      | none =>
      -- ordered list (lines 448-476): started only when the first number
      -- is ≤ 3 and the line is not a subsection number; otherwise the line
      -- falls through to the remaining rules
      let ol : Option Str :=
        match orderedMatch line with
        | some nt =>
          if nt.1 ≤ 3 && !(isSubsection (pyStrip line)) then some nt.2 else none
        | none => none
      match ol with
      | some text =>
        let items := text ::
          (rest.takeWhile (fun l => (orderedMatch l).isSome)).map
            (fun l => ((orderedMatch l).getD (0, [])).2)
        Block.ordered_list items ::
          blocksLoop fuel (rest.dropWhile (fun l => (orderedMatch l).isSome))
      | none =>
      -- code fence (lines 479-507)
      if ("```".toList).isPrefixOf line then
        let language0 := pyStrip (line.drop 3)
        let language := if language0.isEmpty then "plaintext".toList else language0
        let codeLines := rest.takeWhile (fun l => !(("```".toList).isPrefixOf l))
        match rest.drop codeLines.length with
        | _ :: after =>
          Block.code language (List.intercalate ['\n'] codeLines) :: blocksLoop fuel after
        | [] =>
          Block.paragraph (PText.raw line) :: blocksLoop fuel rest
      else
      -- quote (lines 510-527)
      if ("> ".toList).isPrefixOf line then
        let quoteLines := (line.drop 2) ::
          (rest.takeWhile (fun l => ("> ".toList).isPrefixOf l)).map (fun l => l.drop 2)
        Block.quote (List.intercalate ['\n'] quoteLines) ::
          blocksLoop fuel (rest.dropWhile (fun l => ("> ".toList).isPrefixOf l))
      else
      -- table (lines 530-554): needs '|', no '|--' prefix, nonempty cells,
      -- a separator lookahead ('|' and '--' in the next line), and at least
      -- one collected data row; otherwise fall through to the paragraph
      let tbl : Option (List Str × List (List Str) × Nat) :=
        if line.contains '|' && !(("|--".toList).isPrefixOf line) then
          let cells := pipeCells line
          if cells.isEmpty then none
          else
            match rest with
            | [] => none
            | next :: rest2 =>
              if next.contains '|' && containsSub ("--".toList) next then
                let rowLines := rest2.takeWhile
                  (fun l => l.contains '|' && !(containsSub ("--".toList) l))
                let rows := (rowLines.map pipeCells).filter (fun r => !r.isEmpty)
                if rows.isEmpty then none
                else some (cells, rows, 1 + rowLines.length)
              else none
        else none
      match tbl with
      | some hrc => Block.table hrc.1 hrc.2.1 :: blocksLoop fuel (rest.drop hrc.2.2)
      | none =>
        -- paragraph (lines 556-575)
        let contLines := rest.takeWhile paraCont
        let text := List.intercalate [' '] (line :: contLines.map pyStrip)
        Block.paragraph (PText.fmt (parse_inline_formatting text)) ::
          blocksLoop fuel (rest.drop contLines.length)

/-- `_markdown_to_blocks` (lines 373-577). -/
def markdown_to_blocks (markdown : Str) : List Block :=
  let lines := splitLines markdown
  blocksLoop lines.length lines

/-! ## Wire blocks and the block translator (`_blocks_to_feishu_json`,
`_make_text_elements`, `_make_text_obj`, lines 267-371)

`_make_text_elements` runs the identical pattern and loop as
`_parse_inline_formatting`; only the emitted dict shape differs, so the
same `Segment` scan models its `text_run` element list (`Style.plain` for
an element without a `text_element_style`). -/

/-- `_make_text_elements` (lines 267-313): like the segment scan, but an
empty element list is replaced by one element holding the whole text. -/
def make_text_elements (text : Str) : List Segment :=
  let elements := scanAux text.length [] text
  if elements.isEmpty then [⟨text, .plain⟩] else elements

/-- `_make_text_obj` (lines 315-317): `{"elements": ...}`. -/
structure TextObj where
  elements : List Segment
deriving DecidableEq

def make_text_obj (text : Str) : TextObj := ⟨make_text_elements text⟩

/-- Wire-format blocks, one constructor per literal dict shape the code
builds.  Feishu `block_type` tags: text 2, heading level k = 2+k,
bullet 12, ordered 13, code 14, quote 15, divider 22, table 31. -/
inductive FeishuBlock
  | text (t : TextObj)
  | heading (level : Nat) (t : TextObj)
  | bullet (t : TextObj)
  | ordered (t : TextObj)
  | code (t : TextObj)
  | quote (t : TextObj)
  | divider
  | table (row_size col_size : Nat)
deriving DecidableEq

/-- `" | ".join(cells)`. -/
def joinPipe (cells : List Str) : Str := List.intercalate (" | ".toList) cells

/-- The `content` a paragraph's `data.text` payload yields under
`text_data.get("content", "") if isinstance(text_data, dict) else str(text_data)`
(line 339). -/
def ptextContent : PText → Str
  | .raw s => s
  | .fmt (.plain c) => c
  | .fmt (.rich c _) => c

/-- `_blocks_to_feishu_json` (lines 319-371). -/
def blocks_to_feishu_json : Block → List FeishuBlock
  | .heading level text => [.heading level (make_text_obj text)]
  | .paragraph pt => [.text (make_text_obj (ptextContent pt))]
  | .bullet_list items => items.map (fun it => .bullet (make_text_obj it))
  | .ordered_list items => items.map (fun it => .ordered (make_text_obj it))
  | .code _language c => [.code (make_text_obj c)]
  | .quote t => [.quote (make_text_obj t)]
  | .divider => [.divider]
  | .table headers rows =>
    .text (make_text_obj (joinPipe headers)) ::
      rows.map (fun r => .text (make_text_obj (joinPipe r)))

/-! ## Transport model and the write pipeline (lines 71-265)

A response dict is read by the code only through `result.get('children', [])`
and, for the table shell, `children[0].get('table', {}).get('cells', [])`;
the model keeps exactly those paths (`.get` defaults folded in).  `none`
models a falsy `api.post` result. -/

/-- One element of a response's `children` array; `cells` models
`child.get('table', {}).get('cells', [])`. -/
structure RespChild where
  cells : List Str
deriving DecidableEq

/-- A truthy response dict: `children` models `result.get('children', [])`. -/
structure Resp where
  children : List RespChild
deriving DecidableEq

/-- One `api.post` request to the children endpoint of block `parent`
(`/docx/v1/documents/{document_id}/blocks/{parent}/children`), carrying the
`children` payload. -/
structure Request where
  parent : Str
  children : List FeishuBlock
deriving DecidableEq

/-- Consume the next oracle response; an exhausted oracle yields failures. -/
def nextResp : List (Option Resp) → Option Resp × List (Option Resp)
  | [] => (none, [])
  | r :: rest => (r, rest)

/-- `feishu_blocks[i:i+n]` slices of the Python batch loop
`for i in range(0, len(feishu_blocks), batch_size)`.  `fuel` bounds the
number of slices; every step consumes at least one element when `0 < n`,
so `fuel = l.length` suffices (the fuel-exhausted arm is unreachable from
`chunksOf`). -/
def chunksOfFuel {α : Type} (n : Nat) : Nat → List α → List (List α)
  | _, [] => []
  | 0, l => [l]
  | fuel+1, x :: xs => (x :: xs).take n :: chunksOfFuel n fuel ((x :: xs).drop n)

def chunksOf {α : Type} (n : Nat) (l : List α) : List (List α) :=
  chunksOfFuel n l.length l

/-- Per-batch result: success counter, request trace, remaining oracle. -/
structure BatchOut where
  success : Nat
  reqs : List Request
  rest : List (Option Resp)
deriving DecidableEq

/-- The body of the `_write_children_batch` loop over the ≤50-block slices:
each slice is posted; a truthy response contributes `len(children)` (or the
slice size when the response has no/empty `children`), a falsy one 0. -/
def writeBatchGo (parent : Str) : List (List FeishuBlock) → List (Option Resp) → BatchOut
  | [], resps => ⟨0, [], resps⟩
  | batch :: more, resps =>
    let (r, resps1) := nextResp resps
    let n := match r with
      | some resp => if !resp.children.isEmpty then resp.children.length else batch.length
      | none => 0
    let out := writeBatchGo parent more resps1
    ⟨n + out.success, ⟨parent, batch⟩ :: out.reqs, out.rest⟩

/-- `_write_children_batch` (lines 139-161), at the default
`batch_size = 50` used by every call site. -/
def write_children_batch (parent : Str) (feishu_blocks : List FeishuBlock)
    (resps : List (Option Resp)) : BatchOut :=
  writeBatchGo parent (chunksOf 50 feishu_blocks) resps

/-- Result of the cell-fill phase: `filled` counter, request trace,
remaining oracle. -/
structure FillOut where
  filled : Nat
  reqs : List Request
  rest : List (Option Resp)
deriving DecidableEq

/-- Inner cell loop (lines 229-248) for one row: `cell_index = row_idx *
col_count + col_idx`; once the index reaches the end of `cell_ids` the row
is abandoned (`break`); otherwise a text block with the cell content is
posted to that cell's children endpoint and a truthy response bumps
`filled`. -/
def fillRow (cell_ids : List Str) (col_count row_idx : Nat) :
    Nat → List Str → List (Option Resp) → FillOut
  | _, [], resps => ⟨0, [], resps⟩
  | col_idx, cell :: cells, resps =>
    let idx := row_idx * col_count + col_idx
    if cell_ids.length ≤ idx then ⟨0, [], resps⟩
    else
      let req : Request := ⟨cell_ids.getD idx [], [.text (make_text_obj cell)]⟩
      let (r, resps1) := nextResp resps
      let out := fillRow cell_ids col_count row_idx (col_idx + 1) cells resps1
      ⟨(if r.isSome then 1 else 0) + out.filled, req :: out.reqs, out.rest⟩

/-- Outer cell loop (line 228) over `all_rows` with its running
`row_idx`. -/
def fillRows (cell_ids : List Str) (col_count : Nat) :
    Nat → List (List Str) → List (Option Resp) → FillOut
  | _, [], resps => ⟨0, [], resps⟩
  | row_idx, row :: more, resps =>
    let o1 := fillRow cell_ids col_count row_idx 0 row resps
    let o2 := fillRows cell_ids col_count (row_idx + 1) more o1.rest
    ⟨o1.filled + o2.filled, o1.reqs ++ o2.reqs, o2.rest⟩

/-- The flattened text blocks of `_write_table_as_text` (lines 259-263):
one pipe-joined plain text block for the headers (when present) and one per
row. -/
def tableTextBlocks (headers : List Str) (rows : List (List Str)) : List FeishuBlock :=
  (if !headers.isEmpty then [FeishuBlock.text (make_text_obj (joinPipe headers))] else [])
    ++ rows.map (fun row => FeishuBlock.text (make_text_obj (joinPipe row)))

/-- `_write_table_as_text` (lines 254-265): headers and rows flattened to
pipe-joined plain text blocks handed to `_write_children_batch`. -/
def write_table_as_text (parent : Str) (headers : List Str)
    (rows : List (List Str)) (resps : List (Option Resp)) : BatchOut :=
  let text_blocks := tableTextBlocks headers rows
  if !text_blocks.isEmpty then write_children_batch parent text_blocks resps
  else ⟨0, [], resps⟩

/-- Result of `_create_table_block`: the returned boolean, the
`filled/total_cells` pair the function prints on the fill path (line 251),
the request trace and the remaining oracle. -/
structure TableOut where
  ok : Bool
  report : Option (Nat × Nat)
  reqs : List Request
  rest : List (Option Resp)
deriving DecidableEq

/-- `col_count = len(headers) if headers else (len(rows[0]) if rows else 0)`
(line 176). -/
def tableColCount (headers : List Str) (rows : List (List Str)) : Nat :=
  if !headers.isEmpty then headers.length
  else match rows with | [] => 0 | r :: _ => r.length

/-- `row_count = (1 if headers else 0) + len(rows)` (line 177). -/
def tableRowCount (headers : List Str) (rows : List (List Str)) : Nat :=
  (if !headers.isEmpty then 1 else 0) + rows.length

/-- `all_rows = ([headers] if headers else []) + rows` (lines 220-223). -/
def tableAllRows (headers : List Str) (rows : List (List Str)) : List (List Str) :=
  (if !headers.isEmpty then [headers] else []) ++ rows

/-- The phase-1 shell request (lines 186-197): one `block_type` 31 block
sized `row_count × col_count` posted under the parent. -/
def tableShellReq (parent : Str) (headers : List Str) (rows : List (List Str)) : Request :=
  ⟨parent, [.table (tableRowCount headers rows) (tableColCount headers rows)]⟩

/-- `_create_table_block` (lines 163-252): two-phase table creation with
the degraded text fallback when the shell request fails. -/
def create_table_block (parent : Str) (headers : List Str)
    (rows : List (List Str)) (resps : List (Option Resp)) : TableOut :=
  let col_count := tableColCount headers rows
  let row_count := tableRowCount headers rows
  if col_count = 0 || row_count = 0 then ⟨false, none, [], resps⟩
  else
    let (r, resps1) := nextResp resps
    match r with
    | none =>
      let w := write_table_as_text parent headers rows resps1
      ⟨false, none, tableShellReq parent headers rows :: w.reqs, w.rest⟩
    | some resp =>
      match resp.children with
      | [] => ⟨false, none, [tableShellReq parent headers rows], resps1⟩
      | child :: _ =>
        let f := fillRows child.cells col_count 0 (tableAllRows headers rows) resps1
        ⟨decide (0 < f.filled), some (f.filled, row_count * col_count),
          tableShellReq parent headers rows :: f.reqs, f.rest⟩

/-- Running state of the `write_document_content` block loop: accumulated
success / total counters, request trace, remaining oracle. -/
structure PipeOut where
  success_count : Nat
  total_count : Nat
  reqs : List Request
  rest : List (Option Resp)
deriving DecidableEq

/-- The `for block in blocks` loop of `write_document_content`
(lines 95-125), including the final flush (lines 122-125): table blocks
first flush the pending buffer and run the two-phase builder; other blocks
are translated, accumulated, and flushed whenever the buffer has reached
50 wire blocks. -/
def writeLoop (document_id : Str) :
    List Block → List FeishuBlock → List (Option Resp) → PipeOut
  | [], pending, resps =>
    if !pending.isEmpty then
      let w := write_children_batch document_id pending resps
      ⟨w.success, pending.length, w.reqs, w.rest⟩
    else ⟨0, 0, [], resps⟩
  | Block.table hs rs :: rest, pending, resps =>
    let w : BatchOut :=
      if !pending.isEmpty then write_children_batch document_id pending resps
      else ⟨0, [], resps⟩
    let t := create_table_block document_id hs rs w.rest
    let o := writeLoop document_id rest [] t.rest
    ⟨w.success + (if t.ok then 1 else 0) + o.success_count,
      pending.length + 1 + o.total_count,
      w.reqs ++ t.reqs ++ o.reqs, o.rest⟩
  | b :: rest, pending, resps =>
    let pending1 := pending ++ blocks_to_feishu_json b
    if 50 ≤ pending1.length then
      let w := write_children_batch document_id pending1 resps
      let o := writeLoop document_id rest [] w.rest
      ⟨w.success + o.success_count, pending1.length + o.total_count,
        w.reqs ++ o.reqs, o.rest⟩
    else writeLoop document_id rest pending1 resps

/-- Result of `write_document_content`: the returned boolean plus the
`success_count`/`total_count` it reports, the request trace, and the
remaining oracle. -/
structure WriteOut where
  ok : Bool
  success_count : Nat
  total_count : Nat
  reqs : List Request
  rest : List (Option Resp)
deriving DecidableEq

/-- `write_document_content` (lines 71-137).  The parent for all top-level
writes is the document id itself; overall success requires
`success_count / total_count > 0.5` (exact rational arithmetic stands in
for Python float division, which agrees at these magnitudes). -/
def write_document_content (document_id : Str) (content : Str)
    (resps : List (Option Resp)) : WriteOut :=
  let blocks := markdown_to_blocks content
  if blocks.isEmpty then ⟨false, 0, 0, [], resps⟩
  else
    let o := writeLoop document_id blocks [] resps
    if o.total_count = 0 then ⟨false, o.success_count, o.total_count, o.reqs, o.rest⟩
    else
      ⟨decide ((1 : ℚ) / 2 < (o.success_count : ℚ) / (o.total_count : ℚ)),
        o.success_count, o.total_count, o.reqs, o.rest⟩

/-! ## Shared lemmas about the batch machinery -/

/-- The requests a batch write issues: one per slice, in order, independent
of the oracle. -/
theorem writeBatchGo_reqs (p : Str) :
    ∀ (chunks : List (List FeishuBlock)) (resps : List (Option Resp)),
      (writeBatchGo p chunks resps).reqs = chunks.map (fun c => (⟨p, c⟩ : Request)) := by
  intro chunks
  induction chunks with
  | nil => intro resps; rfl
  | cons batch more ih =>
    intro resps
    rcases h : nextResp resps with ⟨r, resps1⟩
    simp [writeBatchGo, h, ih]

/-- Concatenating the slices gives back the sliced list. -/
theorem chunksOfFuel_join {α : Type} (n : Nat) :
    ∀ (fuel : Nat) (l : List α),
      (chunksOfFuel n fuel l).foldr (· ++ ·) [] = l := by
  intro fuel
  induction fuel with
  | zero =>
    intro l
    cases l with
    | nil => rfl
    | cons x xs => simp [chunksOfFuel]
  | succ fuel ih =>
    intro l
    cases l with
    | nil => rfl
    | cons x xs => simp [chunksOfFuel, ih]

/-- With sufficient fuel, every slice has at most 50 elements. -/
theorem chunksOfFuel_le {α : Type} :
    ∀ (fuel : Nat) (l : List α), l.length ≤ fuel →
      ∀ c ∈ chunksOfFuel 50 fuel l, c.length ≤ 50 := by
  intro fuel
  induction fuel with
  | zero =>
    intro l hl c hc
    cases l with
    | nil => simp [chunksOfFuel] at hc
    | cons x xs => simp at hl
  | succ fuel ih =>
    intro l hl c hc
    cases l with
    | nil => simp [chunksOfFuel] at hc
    | cons x xs =>
      simp only [chunksOfFuel, List.mem_cons] at hc
      rcases hc with hc | hc
      · subst hc; simp
      · exact ih _ (by simp at hl ⊢; omega) c hc

/-- Every slice of `chunksOf 50` has at most 50 elements. -/
theorem chunksOf_le {α : Type} (l : List α) :
    ∀ c ∈ chunksOf 50 l, c.length ≤ 50 :=
  chunksOfFuel_le l.length l le_rfl

/-- The blocks handed to `_write_children_batch` all appear, in order, in
its request trace. -/
theorem write_children_batch_children (p : Str) (fbs : List FeishuBlock)
    (resps : List (Option Resp)) :
    (write_children_batch p fbs resps).reqs.foldr (fun r acc => r.children ++ acc) [] = fbs := by
  rw [write_children_batch, writeBatchGo_reqs]
  rw [List.foldr_map]
  exact chunksOfFuel_join 50 fbs.length fbs

/-! ## C10: nothing to write -/

/-- Claim C10: when the conversion of the content yields no blocks (for
example the empty string, or text consisting only of blank lines),
`write_document_content` returns failure without issuing a single request
to the remote store, and reports zero attempted blocks. -/
theorem c10_no_blocks_no_requests (document_id content : Str)
    (resps : List (Option Resp)) (h : markdown_to_blocks content = []) :
    write_document_content document_id content resps = ⟨false, 0, 0, [], resps⟩ := by
  simp [write_document_content, h]

/-- Witness for C10 at the blank-lines input `"\n \n"`. -/
theorem c10_no_blocks_no_requests_witness :
    markdown_to_blocks ("\n \n".toList) = [] ∧
      write_document_content ['d'] ("\n \n".toList) [some ⟨[]⟩] = ⟨false, 0, 0, [], [some ⟨[]⟩]⟩ :=
  ⟨by decide, c10_no_blocks_no_requests ['d'] ("\n \n".toList) [some ⟨[]⟩] (by decide)⟩

/-! ## C2: the overall success ratio -/

/-- Ten one-wire-block paragraphs separated by blank lines. -/
def contentTen : Str := List.intercalate ("\n\n".toList) (List.replicate 10 ['a'])

/-- An oracle whose single batch response reports `n` written children. -/
def childrenResp (n : Nat) : List (Option Resp) := [some ⟨List.replicate n ⟨[]⟩⟩]

/-- Success of a conversion with at least one attempted block is exactly
the strict rational comparison of its reported ratio with one half. -/
theorem wdcOkIff (document_id content : Str) (resps : List (Option Resp))
    (h : (write_document_content document_id content resps).total_count ≠ 0) :
    (write_document_content document_id content resps).ok = true ↔
      (1 : ℚ) / 2 <
        ((write_document_content document_id content resps).success_count : ℚ) /
          ((write_document_content document_id content resps).total_count : ℚ) := by
  by_cases hb : (markdown_to_blocks content).isEmpty
  · simp [write_document_content, hb] at h
  · by_cases ht : (writeLoop document_id (markdown_to_blocks content) [] resps).total_count = 0
    · simp [write_document_content, hb, ht] at h
    · simp [write_document_content, hb, ht]

/-- Claim C2: whenever at least one block was attempted,
`write_document_content` declares overall success exactly when
`success_count / total_count > 0.5` (exact rational arithmetic); at the
boundary, 5 successes of 10 attempted blocks is reported as failure and 6
of 10 as success. -/
theorem c2_success_ratio :
    (∀ (document_id content : Str) (resps : List (Option Resp)),
      (write_document_content document_id content resps).total_count ≠ 0 →
      ((write_document_content document_id content resps).ok = true ↔
        (1 : ℚ) / 2 <
          ((write_document_content document_id content resps).success_count : ℚ) /
            ((write_document_content document_id content resps).total_count : ℚ))) ∧
    (write_document_content ['d'] contentTen (childrenResp 5)).success_count = 5 ∧
    (write_document_content ['d'] contentTen (childrenResp 5)).total_count = 10 ∧
    (write_document_content ['d'] contentTen (childrenResp 5)).ok = false ∧
    (write_document_content ['d'] contentTen (childrenResp 6)).success_count = 6 ∧
    (write_document_content ['d'] contentTen (childrenResp 6)).ok = true := by
  have h5s : (write_document_content ['d'] contentTen (childrenResp 5)).success_count = 5 := by
    decide
  have h5t : (write_document_content ['d'] contentTen (childrenResp 5)).total_count = 10 := by
    decide
  have h6s : (write_document_content ['d'] contentTen (childrenResp 6)).success_count = 6 := by
    decide
  have h6t : (write_document_content ['d'] contentTen (childrenResp 6)).total_count = 10 := by
    decide
  have h5 := wdcOkIff ['d'] contentTen (childrenResp 5) (by rw [h5t]; omega)
  have h6 := wdcOkIff ['d'] contentTen (childrenResp 6) (by rw [h6t]; omega)
  rw [h5s, h5t] at h5
  rw [h6s, h6t] at h6
  refine ⟨fun d c r h => wdcOkIff d c r h, h5s, h5t, ?_, h6s, ?_⟩
  · cases hok : (write_document_content ['d'] contentTen (childrenResp 5)).ok with
    | false => rfl
    | true =>
      exfalso
      have := h5.mp hok
      norm_num at this
  · rw [h6]
    norm_num

/-- Witness for C2 at the 5-of-10 boundary input. -/
theorem c2_success_ratio_witness :
    (write_document_content ['d'] contentTen (childrenResp 5)).total_count ≠ 0 ∧
      ((write_document_content ['d'] contentTen (childrenResp 5)).ok = true ↔
        (1 : ℚ) / 2 <
          ((write_document_content ['d'] contentTen (childrenResp 5)).success_count : ℚ) /
            ((write_document_content ['d'] contentTen (childrenResp 5)).total_count : ℚ)) :=
  ⟨by decide, c2_success_ratio.1 ['d'] contentTen (childrenResp 5) (by decide)⟩

/-! ## C5: table shell failure degrades to flattened text -/

/-- A non-degenerate table always flattens to at least one text block. -/
theorem tableTextBlocks_ne_empty (headers : List Str) (rows : List (List Str))
    (hr : tableRowCount headers rows ≠ 0) :
    (tableTextBlocks headers rows).isEmpty = false := by
  unfold tableTextBlocks tableRowCount at *
  cases headers with
  | nil =>
    simp at hr ⊢
    cases rows with
    | nil => simp at hr
    | cons r rs => simp
  | cons h hs => simp

/-- Claim C5: for a non-empty table, when the shell-creation request fails
(the transport returns nil) the builder reports the table as failed and
falls back to writing the pipe-joined header and row lines as ordinary
text blocks through the batch writer; every one of those flattened text
blocks appears in the issued requests, so the content is not lost. -/
theorem c5_table_fallback (parent : Str) (headers : List Str)
    (rows : List (List Str)) (resps : List (Option Resp))
    (hc : tableColCount headers rows ≠ 0) (hr : tableRowCount headers rows ≠ 0) :
    create_table_block parent headers rows (none :: resps) =
      ⟨false, none,
        tableShellReq parent headers rows ::
          (write_children_batch parent (tableTextBlocks headers rows) resps).reqs,
        (write_children_batch parent (tableTextBlocks headers rows) resps).rest⟩ ∧
    (write_children_batch parent (tableTextBlocks headers rows) resps).reqs.foldr
        (fun r acc => r.children ++ acc) [] = tableTextBlocks headers rows := by
  constructor
  · simp [create_table_block, nextResp, hc, hr, write_table_as_text,
      tableTextBlocks_ne_empty headers rows hr]
  · exact write_children_batch_children parent (tableTextBlocks headers rows) resps

/-- Witness for C5: a 2-column table with one data row, shell request
failing. -/
theorem c5_table_fallback_witness :
    tableColCount [['a'], ['b']] [[['x'], ['y']]] ≠ 0 ∧
      tableRowCount [['a'], ['b']] [[['x'], ['y']]] ≠ 0 ∧
      create_table_block ['d'] [['a'], ['b']] [[['x'], ['y']]] [none, some ⟨[]⟩] =
        ⟨false, none,
          tableShellReq ['d'] [['a'], ['b']] [[['x'], ['y']]] ::
            (write_children_batch ['d'] (tableTextBlocks [['a'], ['b']] [[['x'], ['y']]]) [some ⟨[]⟩]).reqs,
          (write_children_batch ['d'] (tableTextBlocks [['a'], ['b']] [[['x'], ['y']]]) [some ⟨[]⟩]).rest⟩ :=
  ⟨by decide, by decide,
    (c5_table_fallback ['d'] [['a'], ['b']] [[['x'], ['y']]] [some ⟨[]⟩]
      (by decide) (by decide)).1⟩

/-! ## C3: flush points and batch sizes -/

/-- 120 blocks that each translate to exactly one wire block. -/
def blocks120 : List Block := List.replicate 120 (Block.paragraph (PText.raw ['a']))

/-- Claim C3: the batch writer issues one request per at-most-50-block
slice of what it flushes; encountering a table first flushes everything
pending before the table's own requests; and a buffer reaching 50
accumulated wire blocks is flushed at once, so 120 one-wire-block
non-table blocks produce exactly three batch requests of sizes 50, 50
and 20. -/
theorem c3_batch_flush :
    (∀ (p : Str) (fbs : List FeishuBlock) (resps : List (Option Resp)),
      (write_children_batch p fbs resps).reqs =
        (chunksOf 50 fbs).map (fun c => (⟨p, c⟩ : Request)) ∧
      ∀ r ∈ (write_children_batch p fbs resps).reqs, r.children.length ≤ 50) ∧
    (∀ (document_id : Str) (hs : List Str) (rs : List (List Str)) (rest : List Block)
        (pending : List FeishuBlock) (resps : List (Option Resp)),
      (writeLoop document_id (Block.table hs rs :: rest) pending resps).reqs =
        (if !pending.isEmpty then write_children_batch document_id pending resps
          else ⟨0, [], resps⟩).reqs ++
        (create_table_block document_id hs rs
          ((if !pending.isEmpty then write_children_batch document_id pending resps
            else ⟨0, [], resps⟩).rest)).reqs ++
        (writeLoop document_id rest []
          ((create_table_block document_id hs rs
            ((if !pending.isEmpty then write_children_batch document_id pending resps
              else ⟨0, [], resps⟩).rest)).rest)).reqs) ∧
    ((writeLoop ['d'] blocks120 [] []).reqs.map (fun r => r.children.length) =
      [50, 50, 20]) := by
  refine ⟨?_, ?_, by decide⟩
  · intro p fbs resps
    have hreqs : (write_children_batch p fbs resps).reqs =
        (chunksOf 50 fbs).map (fun c => (⟨p, c⟩ : Request)) :=
      writeBatchGo_reqs p (chunksOf 50 fbs) resps
    refine ⟨hreqs, ?_⟩
    intro r hr
    rw [hreqs] at hr
    simp only [List.mem_map] at hr
    obtain ⟨c, hc, hrc⟩ := hr
    subst hrc
    exact chunksOf_le fbs c hc
  · intro document_id hs rs rest pending resps
    rfl

/-- Witness for C3: a 60-block flush, whose first request is the full
50-block slice. -/
theorem c3_batch_flush_witness :
    (⟨['d'], List.replicate 50 FeishuBlock.divider⟩ : Request) ∈
      (write_children_batch ['d'] (List.replicate 60 FeishuBlock.divider) []).reqs ∧
    (⟨['d'], List.replicate 50 FeishuBlock.divider⟩ : Request).children.length ≤ 50 :=
  ⟨by decide,
    (c3_batch_flush.1 ['d'] (List.replicate 60 FeishuBlock.divider) []).2
      ⟨['d'], List.replicate 50 FeishuBlock.divider⟩ (by decide)⟩

/-! ## C4: under-provisioned cell identifiers -/

/-- Fill count of one row against a short identifier array: with an oracle
of `m` truthy responses, the inner loop attempts exactly the cells whose
row-major index is below `cell_ids.length`, fills all of them, and leaves
the rest of the oracle untouched. -/
theorem fillRow_spec (ids : List Str) (cc ri : Nat) (r0 : Resp) :
    ∀ (row : List Str) (ci m : Nat),
      min row.length (ids.length - (ri * cc + ci)) ≤ m →
      (fillRow ids cc ri ci row (List.replicate m (some r0))).filled =
          min row.length (ids.length - (ri * cc + ci)) ∧
      (fillRow ids cc ri ci row (List.replicate m (some r0))).reqs.length =
          min row.length (ids.length - (ri * cc + ci)) ∧
      (fillRow ids cc ri ci row (List.replicate m (some r0))).rest =
          List.replicate (m - min row.length (ids.length - (ri * cc + ci))) (some r0) := by
  intro row
  induction row with
  | nil =>
    intro ci m _
    simp [fillRow]
  | cons cell cells ih =>
    intro ci m hm
    by_cases hidx : ids.length ≤ ri * cc + ci
    · have hz : min (cell :: cells).length (ids.length - (ri * cc + ci)) = 0 := by
        simp [List.length_cons]
        omega
      rw [hz] at hm ⊢
      simp [fillRow, hidx]
    · push_neg at hidx
      have hA : min (cell :: cells).length (ids.length - (ri * cc + ci)) =
          min cells.length (ids.length - (ri * cc + (ci + 1))) + 1 := by
        simp [List.length_cons]
        omega
      rw [hA] at hm ⊢
      cases m with
      | zero => omega
      | succ m' =>
        have hstep := ih (ci + 1) m' (by omega)
        have hnot : ¬ ids.length ≤ ri * cc + ci := by omega
        simp only [fillRow, List.replicate_succ, nextResp, hnot, if_false]
        simp only [Option.isSome_some]
        refine ⟨?_, ?_, ?_⟩
        · simp [hstep.1]; omega
        · simp [hstep.2.1]
        · rw [hstep.2.2]
          congr 1
          omega

/-- Fill count over all rows: with uniform row length `cc` and a
sufficient oracle of truthy responses, exactly
`min cell_ids.length (rows * cc)` cells are filled. -/
theorem fillRows_spec (ids : List Str) (cc : Nat) (r0 : Resp) :
    ∀ (rows : List (List Str)) (ri m : Nat),
      (∀ row ∈ rows, row.length = cc) →
      min (ids.length - ri * cc) (rows.length * cc) ≤ m →
      (fillRows ids cc ri rows (List.replicate m (some r0))).filled =
          min (ids.length - ri * cc) (rows.length * cc) ∧
      (fillRows ids cc ri rows (List.replicate m (some r0))).reqs.length =
          min (ids.length - ri * cc) (rows.length * cc) ∧
      (fillRows ids cc ri rows (List.replicate m (some r0))).rest =
          List.replicate (m - min (ids.length - ri * cc) (rows.length * cc)) (some r0) := by
  intro rows
  induction rows with
  | nil =>
    intro ri m _ _
    simp [fillRows]
  | cons row rows ih =>
    intro ri m hlen hm
    have hrow : row.length = cc := hlen row (by simp)
    have hmul : (row :: rows).length * cc = rows.length * cc + cc := by
      simp [List.length_cons, Nat.succ_mul]
    have hmul2 : (ri + 1) * cc = ri * cc + cc := by
      rw [Nat.succ_mul]
    have h1 := fillRow_spec ids cc ri r0 row 0 m (by rw [hrow]; omega)
    rw [hrow] at h1
    have hA1 : min cc (ids.length - (ri * cc + 0)) = min cc (ids.length - ri * cc) := by
      omega
    rw [hA1] at h1
    have h2 := ih (ri + 1) (m - min cc (ids.length - ri * cc))
      (fun r hr => hlen r (by simp [hr]))
      (by rw [hmul2]; rw [hmul] at hm; omega)
    rw [hmul2] at h2
    simp only [fillRows, h1.2.2]
    refine ⟨?_, ?_, ?_⟩
    · rw [h1.1, h2.1, hmul]
      omega
    · rw [List.length_append, h1.2.1, h2.2.1, hmul]
      omega
    · rw [h2.2.2, hmul]
      congr 1
      omega

/-- `all_rows` has exactly `row_count` rows. -/
theorem tableAllRows_length (headers : List Str) (rows : List (List Str)) :
    (tableAllRows headers rows).length = tableRowCount headers rows := by
  cases headers with
  | nil => simp [tableAllRows, tableRowCount]
  | cons h hs => simp [tableAllRows, tableRowCount]; omega

/-- Claim C4: when the shell succeeds but the store returns fewer cell
identifiers than `row_count * col_count`, the fill loop silently stops at
the end of the identifier array: with a sufficient truthy oracle exactly
`cell_ids.length` cells are filled (so 4 of 9 expected identifiers yield
4 filled cells), the reported pair is `(cell_ids.length, row_count *
col_count)`, one request is issued per filled cell, and — on any fill path
whatsoever — the table is declared successful exactly when the reported
`filled` count is positive. -/
theorem c4_underfilled_table :
    (∀ (parent : Str) (headers : List Str) (rows : List (List Str))
        (ids : List Str) (m : Nat) (r0 : Resp),
      (∀ row ∈ tableAllRows headers rows, row.length = tableColCount headers rows) →
      tableColCount headers rows ≠ 0 →
      tableRowCount headers rows ≠ 0 →
      ids.length < tableRowCount headers rows * tableColCount headers rows →
      ids.length ≤ m →
      (create_table_block parent headers rows
          (some ⟨[⟨ids⟩]⟩ :: List.replicate m (some r0))).report =
        some (ids.length, tableRowCount headers rows * tableColCount headers rows) ∧
      (create_table_block parent headers rows
          (some ⟨[⟨ids⟩]⟩ :: List.replicate m (some r0))).ok =
        decide (0 < ids.length) ∧
      (create_table_block parent headers rows
          (some ⟨[⟨ids⟩]⟩ :: List.replicate m (some r0))).reqs.length =
        1 + ids.length) ∧
    (∀ (parent : Str) (headers : List Str) (rows : List (List Str))
        (resps : List (Option Resp)) (f t : Nat),
      (create_table_block parent headers rows resps).report = some (f, t) →
      ((create_table_block parent headers rows resps).ok = true ↔ 0 < f)) := by
  constructor
  · intro parent headers rows ids m r0 hlen hc hr hshort hm
    have hfill := fillRows_spec ids (tableColCount headers rows) r0
      (tableAllRows headers rows) 0 m hlen ?_
    · have hmin : min (ids.length - 0 * tableColCount headers rows)
          ((tableAllRows headers rows).length * tableColCount headers rows) = ids.length := by
        rw [tableAllRows_length]
        omega
      rw [hmin] at hfill
      simp only [create_table_block, hc, hr, nextResp]
      simp only [decide_eq_false_iff_not.mpr hc, decide_eq_false_iff_not.mpr hr,
        Bool.or_self, Bool.false_or, if_false]
      refine ⟨?_, ?_, ?_⟩
      · simp [hfill.1]
      · simp [hfill.1]
      · simp [hfill.2.1]
        omega
    · rw [tableAllRows_length]
      omega
  · intro parent headers rows resps f t hrep
    by_cases hz : tableColCount headers rows = 0 ∨ tableRowCount headers rows = 0
    · exfalso
      have : (create_table_block parent headers rows resps).report = none := by
        unfold create_table_block
        rcases hz with hz | hz <;> simp [hz]
      rw [this] at hrep
      exact Option.noConfusion hrep
    · push_neg at hz
      rcases hnr : nextResp resps with ⟨r, resps1⟩
      cases r with
      | none =>
        exfalso
        have : (create_table_block parent headers rows resps).report = none := by
          unfold create_table_block
          simp [hz.1, hz.2, hnr]
        rw [this] at hrep
        exact Option.noConfusion hrep
      | some resp =>
        cases hch : resp.children with
        | nil =>
          exfalso
          have : (create_table_block parent headers rows resps).report = none := by
            unfold create_table_block
            simp [hz.1, hz.2, hnr, hch]
          rw [this] at hrep
          exact Option.noConfusion hrep
        | cons child cs =>
          have hval : (create_table_block parent headers rows resps).report =
              some ((fillRows child.cells (tableColCount headers rows) 0
                (tableAllRows headers rows) resps1).filled,
                tableRowCount headers rows * tableColCount headers rows) ∧
              (create_table_block parent headers rows resps).ok =
              decide (0 < (fillRows child.cells (tableColCount headers rows) 0
                (tableAllRows headers rows) resps1).filled) := by
            unfold create_table_block
            simp [hz.1, hz.2, hnr, hch]
          rw [hval.1] at hrep
          have hf : f = (fillRows child.cells (tableColCount headers rows) 0
              (tableAllRows headers rows) resps1).filled := by
            cases hrep
            rfl
          rw [hval.2, hf]
          simp

/-- Witness for C4: a three-by-three table (headers plus two rows) whose
shell response returns only 4 of the 9 expected cell identifiers. -/
theorem c4_underfilled_table_witness :
    (create_table_block ['d'] [['a'], ['b'], ['c']]
        [[['x'], ['y'], ['z']], [['u'], ['v'], ['w']]]
        (some ⟨[⟨[['1'], ['2'], ['3'], ['4']]⟩]⟩ :: List.replicate 9 (some (⟨[]⟩ : Resp)))).report =
      some (4, 9) ∧
    (create_table_block ['d'] [['a'], ['b'], ['c']]
        [[['x'], ['y'], ['z']], [['u'], ['v'], ['w']]]
        (some ⟨[⟨[['1'], ['2'], ['3'], ['4']]⟩]⟩ :: List.replicate 9 (some (⟨[]⟩ : Resp)))).ok =
      decide (0 < 4) ∧
    (create_table_block ['d'] [['a'], ['b'], ['c']]
        [[['x'], ['y'], ['z']], [['u'], ['v'], ['w']]]
        (some ⟨[⟨[['1'], ['2'], ['3'], ['4']]⟩]⟩ :: List.replicate 9 (some (⟨[]⟩ : Resp)))).reqs.length =
      1 + 4 :=
  by
    have h := c4_underfilled_table.1 ['d'] [['a'], ['b'], ['c']]
      [[['x'], ['y'], ['z']], [['u'], ['v'], ['w']]]
      [['1'], ['2'], ['3'], ['4']] 9 (⟨[]⟩ : Resp)
      (by decide) (by decide) (by decide) (by decide) (by decide)
    exact ⟨h.1, h.2.1, h.2.2⟩

/-! ## C1: the inline span parser is lossless -/

/-- `takeWhile` is the `take` of its own length. -/
theorem takeWhile_eq_take_len {α : Type} (p : α → Bool) :
    ∀ l : List α, l.takeWhile p = l.take (l.takeWhile p).length := by
  intro l
  induction l with
  | nil => rfl
  | cons c rest ih =>
    by_cases hc : p c
    · simp [List.takeWhile_cons, hc]
      exact ih
    · simp [List.takeWhile_cons, hc]

/-- Splitting a list at the end of its `takeWhile` prefix. -/
theorem takeWhile_append_drop {α : Type} (p : α → Bool) (l : List α) :
    l = l.takeWhile p ++ l.drop (l.takeWhile p).length := by
  conv_lhs => rw [← List.take_append_drop (l.takeWhile p).length l]
  rw [← takeWhile_eq_take_len]

/-- A successful `findClose` decomposes its input as content, closer,
remainder. -/
theorem findClose_eq (closer : Str) :
    ∀ (l content after : Str), findClose closer l = some (content, after) →
      l = content ++ closer ++ after := by
  intro l
  induction l with
  | nil =>
    intro content after h
    simp only [findClose] at h
    exact Option.noConfusion h
  | cons c rest ih =>
    intro content after h
    simp only [findClose] at h
    by_cases hnl : c = '\n'
    · rw [if_pos hnl] at h
      simp at h
    · rw [if_neg hnl] at h
      by_cases hpre : closer.isPrefixOf rest
      · rw [if_pos hpre] at h
        simp only [Option.some.injEq, Prod.mk.injEq] at h
        obtain ⟨h1, h2⟩ := h
        subst h1
        subst h2
        have hp := List.prefix_iff_eq_append.mp (List.isPrefixOf_iff_prefix.mp hpre)
        simp only [List.singleton_append, List.cons_append, List.nil_append]
        rw [hp]
      · rw [if_neg hpre] at h
        cases hfc : findClose closer rest with
        | none => rw [hfc] at h; simp at h
        | some ca =>
          rw [hfc] at h
          obtain ⟨content', after'⟩ := ca
          simp only [Option.some.injEq, Prod.mk.injEq] at h
          obtain ⟨h1, h2⟩ := h
          subst h1
          subst h2
          have hr := ih content' after' hfc
          rw [hr]
          simp

/-- A successful `tryDelim` decomposes its input as opener, content,
closer, remainder. -/
theorem tryDelim_eq (opener closer l content after : Str)
    (h : tryDelim opener closer l = some (content, after)) :
    l = opener ++ (content ++ (closer ++ after)) := by
  unfold tryDelim at h
  by_cases hpre : opener.isPrefixOf l
  · rw [if_pos hpre] at h
    have hl := List.prefix_iff_eq_append.mp (List.isPrefixOf_iff_prefix.mp hpre)
    have hd := findClose_eq closer (l.drop opener.length) content after h
    rw [← hl]
    congr 1
    rw [hd]
    simp
  · rw [if_neg hpre] at h
    exact Option.noConfusion h

/-- A successful `tryLink` decomposes its input as bracketed text and
parenthesised url followed by the remainder. -/
theorem tryLink_eq (l t u after : Str) (h : tryLink l = some (t, u, after)) :
    l = '[' :: (t ++ ']' :: '(' :: (u ++ ')' :: after)) := by
  cases l with
  | nil => exact Option.noConfusion h
  | cons c0 rest =>
    simp only [tryLink] at h
    by_cases hc0 : c0 = '['
    · rw [if_pos hc0] at h
      subst hc0
      by_cases htxt : (rest.takeWhile (fun c => c ≠ ']')).isEmpty
      · rw [if_pos htxt] at h
        exact Option.noConfusion h
      · rw [if_neg htxt] at h
        split at h
        · rename_i c1 c2 rest2 heq
          split at h
          · rename_i h12
            have hc1 : c1 = ']' := by
              have := (Bool.and_eq_true_iff.mp h12).1
              simpa using this
            have hc2 : c2 = '(' := by
              have := (Bool.and_eq_true_iff.mp h12).2
              simpa using this
            subst hc1
            subst hc2
            split at h
            · exact Option.noConfusion h
            · split at h
              · rename_i c3 after1 heq2
                split at h
                · rename_i hc3
                  subst hc3
                  simp only [Option.some.injEq, Prod.mk.injEq] at h
                  obtain ⟨h1, h2, h3⟩ := h
                  subst h1
                  subst h2
                  subst h3
                  congr 1
                  conv_lhs => rw [takeWhile_append_drop (fun c => c ≠ ']') rest]
                  rw [heq]
                  congr 2
                  conv_lhs => rw [takeWhile_append_drop (fun c => c ≠ ')') rest2]
                  rw [heq2]
                · exact Option.noConfusion h
              · exact Option.noConfusion h
          · exact Option.noConfusion h
        · exact Option.noConfusion h
    · rw [if_neg hc0] at h
      exact Option.noConfusion h

/-- A successful `tryMatch` decomposes its input as the matched span with
its delimiters re-inserted, followed by the remainder. -/
theorem tryMatch_eq (l : Str) (seg : Segment) (after : Str)
    (h : tryMatch l = some (seg, after)) :
    l = styleWrap seg ++ after := by
  unfold tryMatch at h
  split at h
  · rename_i c a heq
    simp only [Option.some.injEq, Prod.mk.injEq] at h
    obtain ⟨h1, h2⟩ := h
    subst h2
    rw [← h1]
    rw [tryDelim_eq _ _ _ _ _ heq]
    simp [styleWrap]
  · split at h
    · rename_i c a heq
      simp only [Option.some.injEq, Prod.mk.injEq] at h
      obtain ⟨h1, h2⟩ := h
      subst h2
      rw [← h1]
      rw [tryDelim_eq _ _ _ _ _ heq]
      simp [styleWrap]
    · split at h
      · rename_i c a heq
        simp only [Option.some.injEq, Prod.mk.injEq] at h
        obtain ⟨h1, h2⟩ := h
        subst h2
        rw [← h1]
        rw [tryDelim_eq _ _ _ _ _ heq]
        simp [styleWrap]
      · split at h
        · rename_i c a heq
          simp only [Option.some.injEq, Prod.mk.injEq] at h
          obtain ⟨h1, h2⟩ := h
          subst h2
          rw [← h1]
          rw [tryDelim_eq _ _ _ _ _ heq]
          simp [styleWrap]
        · split at h
          · rename_i c a heq
            simp only [Option.some.injEq, Prod.mk.injEq] at h
            obtain ⟨h1, h2⟩ := h
            subst h2
            rw [← h1]
            rw [tryDelim_eq _ _ _ _ _ heq]
            simp [styleWrap]
          · split at h
            · rename_i t u a heq
              simp only [Option.some.injEq, Prod.mk.injEq] at h
              obtain ⟨h1, h2⟩ := h
              subst h2
              rw [← h1]
              rw [tryLink_eq _ _ _ _ heq]
              simp [styleWrap]
            · exact Option.noConfusion h

/-- `reconstruct` distributes over cons. -/
theorem reconstruct_cons (s : Segment) (segs : List Segment) :
    reconstruct (s :: segs) = styleWrap s ++ reconstruct segs := rfl

/-- `reconstruct` of the empty span list. -/
theorem reconstruct_nil : reconstruct [] = [] := rfl

/-- Re-inserting delimiters into the scan output reproduces the remaining
input after the pending plain prefix, for any fuel. -/
theorem reconstruct_scanAux :
    ∀ (fuel : Nat) (acc l : Str),
      reconstruct (scanAux fuel acc l) = acc.reverse ++ l := by
  intro fuel
  induction fuel with
  | zero =>
    intro acc l
    cases l with
    | nil =>
      by_cases ha : acc.isEmpty
      · have hae : acc = [] := by simpa using ha
        subst hae
        simp [scanAux, reconstruct_nil]
      · simp [scanAux, ha, reconstruct_cons, reconstruct_nil, styleWrap]
    | cons c rest =>
      simp [scanAux, reconstruct_cons, reconstruct_nil, styleWrap]
  | succ fuel ih =>
    intro acc l
    cases l with
    | nil =>
      by_cases ha : acc.isEmpty
      · have hae : acc = [] := by simpa using ha
        subst hae
        simp [scanAux, reconstruct_nil]
      · simp [scanAux, ha, reconstruct_cons, reconstruct_nil, styleWrap]
    | cons c rest =>
      cases hm : tryMatch (c :: rest) with
      | none =>
        have hstep := ih (c :: acc) rest
        simp only [scanAux, hm]
        rw [hstep]
        simp
      | some sa =>
        obtain ⟨seg, after⟩ := sa
        have hdec := tryMatch_eq (c :: rest) seg after hm
        by_cases ha : acc.isEmpty
        · have hae : acc = [] := by simpa using ha
          subst hae
          simp only [scanAux, hm, List.isEmpty_nil, if_true]
          rw [reconstruct_cons, ih [] after]
          simp [← hdec]
        · simp only [scanAux, hm]
          rw [if_neg ha]
          rw [reconstruct_cons, reconstruct_cons, ih [] after]
          rw [show styleWrap ⟨acc.reverse, Style.plain⟩ = acc.reverse from rfl]
          rw [show ([] : Str).reverse ++ after = after by simp, hdec]

/-- `noInlineMatch` says exactly that no suffix position matches. -/
theorem noInlineMatch_iff (l : Str) :
    noInlineMatch l = true ↔ ∀ k, tryMatch (l.drop k) = none := by
  unfold noInlineMatch
  rw [List.all_eq_true]
  constructor
  · intro h k
    by_cases hk : k ≤ l.length
    · have := h k (by simp [List.mem_range]; omega)
      simpa [Option.isNone_iff_eq_none] using this
    · push_neg at hk
      rw [List.drop_eq_nil_of_le (by omega)]
      rfl
  · intro h x hx
    simp [Option.isNone_iff_eq_none, h x]

/-- When no position of the line matches, the scan yields the single
pending-plus-line plain segment (or nothing when both are empty). -/
theorem scanAux_nomatch :
    ∀ (l acc : Str) (fuel : Nat),
      (∀ k, tryMatch (l.drop k) = none) → l.length ≤ fuel →
      scanAux fuel acc l =
        if (acc.reverse ++ l).isEmpty then [] else [⟨acc.reverse ++ l, .plain⟩] := by
  intro l
  induction l with
  | nil =>
    intro acc fuel h hf
    by_cases ha : acc.isEmpty
    · have hae : acc = [] := by simpa using ha
      subst hae
      cases fuel with
      | zero => simp [scanAux]
      | succ f => simp [scanAux]
    · have hae : acc ≠ [] := by simpa using ha
      cases fuel with
      | zero => simp [scanAux, ha, hae]
      | succ f => simp [scanAux, ha, hae]
  | cons c rest ih =>
    intro acc fuel h hf
    cases fuel with
    | zero => simp at hf
    | succ f =>
      have h0 : tryMatch (c :: rest) = none := by
        have := h 0
        simpa using this
      have hrest : ∀ k, tryMatch (rest.drop k) = none := by
        intro k
        have := h (k + 1)
        simpa using this
      have hfle : rest.length ≤ f := by
        simp at hf
        omega
      simp only [scanAux, h0]
      rw [ih (c :: acc) f hrest hfle]
      have hrw : (c :: acc).reverse ++ rest = acc.reverse ++ c :: rest := by simp
      rw [hrw]

/-- Claim C1: re-inserting each span's stripped markup delimiters around
its content and concatenating reproduces the input line exactly — i.e. the
concatenated span contents are the line with only the delimiters removed;
and when no inline pattern matches anywhere in the line, the parser's
output denotes the single plain span holding the whole line. -/
theorem c1_inline_spans_lossless :
    (∀ l : Str, reconstruct (spansOf (parse_inline_formatting l)) = l) ∧
    (∀ l : Str, noInlineMatch l = true →
      spansOf (parse_inline_formatting l) = [⟨l, Style.plain⟩]) := by
  constructor
  · intro l
    unfold parse_inline_formatting
    by_cases hs : (scanAux l.length [] l).isEmpty
    · simp only [hs, if_true]
      simp [spansOf, reconstruct_cons, reconstruct_nil, styleWrap]
    · simp only [hs, if_false]
      have := reconstruct_scanAux l.length [] l
      simpa [spansOf] using this
  · intro l h
    have hnm := (noInlineMatch_iff l).mp h
    have hsc := scanAux_nomatch l [] l.length hnm le_rfl
    unfold parse_inline_formatting
    cases l with
    | nil =>
      simp at hsc
      simp [hsc, spansOf]
    | cons c rest =>
      have hval : scanAux (rest.length + 1) [] (c :: rest) = [⟨c :: rest, Style.plain⟩] := by
        have hlen := hsc
        simp only [List.length_cons] at hlen
        rw [hlen]
        simp
      simp [hval, spansOf]

/-- Witness for C1 on a line with no inline markup. -/
theorem c1_inline_spans_lossless_witness :
    noInlineMatch ("hello".toList) = true ∧
      spansOf (parse_inline_formatting ("hello".toList)) =
        [⟨"hello".toList, Style.plain⟩] :=
  ⟨by decide, c1_inline_spans_lossless.2 ("hello".toList) (by decide)⟩

/-! ## Scanner toolkit: single-line reduction and dispatch-guard lemmas -/

/-- A newline-free string splits into a single line. -/
theorem splitLines_no_newline :
    ∀ l : Str, l.contains '\n' = false → splitLines l = [l] := by
  intro l
  induction l with
  | nil => intro h; rfl
  | cons c rest ih =>
    intro h
    simp only [List.contains_cons, Bool.or_eq_false_iff] at h
    have hc : ¬ c = '\n' := by
      intro hc
      subst hc
      simp at h
    have := ih h.2
    simp only [splitLines, splitOnChar, if_neg hc] at *
    rw [this]

/-- Splitting at an explicit first newline. -/
theorem splitLines_cons (l1 tail : Str) (h : l1.contains '\n' = false) :
    splitLines (l1 ++ '\n' :: tail) = l1 :: splitLines tail := by
  induction l1 with
  | nil => simp [splitLines, splitOnChar]
  | cons c rest ih =>
    simp only [List.contains_cons, Bool.or_eq_false_iff] at h
    have hc : ¬ c = '\n' := by
      intro hc
      subst hc
      simp at h
    have := ih h.2
    simp only [List.cons_append, splitLines, splitOnChar, if_neg hc, List.append_eq] at *
    rw [this]

/-- `markdown_to_blocks` on a single (newline-free) line. -/
theorem markdown_to_blocks_single (l : Str) (h : l.contains '\n' = false) :
    markdown_to_blocks l = blocksLoop 1 [l] := by
  unfold markdown_to_blocks
  rw [splitLines_no_newline l h]
  rfl

/-- `markdown_to_blocks` on exactly two lines. -/
theorem markdown_to_blocks_two (l1 l2 : Str)
    (h1 : l1.contains '\n' = false) (h2 : l2.contains '\n' = false) :
    markdown_to_blocks (l1 ++ '\n' :: l2) = blocksLoop 2 [l1, l2] := by
  unfold markdown_to_blocks
  rw [splitLines_cons l1 l2 h1, splitLines_no_newline l2 h2]
  rfl

/-- A digit head rules out every other dispatch marker character. -/
theorem digit_ne_marker (c : Char) (h : c.isDigit = true) :
    c ≠ '#' ∧ c ≠ '-' ∧ c ≠ '*' ∧ c ≠ '_' ∧ c ≠ '+' ∧ c ≠ backtickChar ∧ c ≠ '>' := by
  refine ⟨?_, ?_, ?_, ?_, ?_, ?_, ?_⟩ <;>
    · intro he
      subst he
      revert h
      decide

/-- `headingMatch` fails when the line does not start with `#`. -/
theorem headingMatch_none (c : Char) (rest : Str) (h : c ≠ '#') :
    headingMatch (c :: rest) = none := by
  unfold headingMatch
  have : (c :: rest).takeWhile (fun x => x = '#') = [] := by
    simp [List.takeWhile_cons, h]
  rw [this]
  simp

/-- `isDividerLine` fails when the line does not start with one of the
divider characters. -/
theorem isDividerLine_false (c : Char) (rest : Str)
    (h : ¬ (c = '-' || c = '*' || c = '_')) :
    isDividerLine (c :: rest) = false := by
  unfold isDividerLine
  have : (c :: rest).takeWhile (fun x => x = '-' || x = '*' || x = '_') = [] := by
    simp only [List.takeWhile_cons]
    rw [if_neg (by simpa using h)]
  rw [this]
  simp

/-- `bulletMatch` fails when the line does not start with a bullet
marker. -/
theorem bulletMatch_none (c : Char) (rest : Str)
    (h : ¬ (c = '-' || c = '*' || c = '+')) :
    bulletMatch (c :: rest) = none := by
  have hb : bulletMatch (c :: rest) =
      if c = '-' || c = '*' || c = '+' then wsSplitText rest else none := rfl
  rw [hb, if_neg (by simpa using h)]

/-- A nonempty-prefix test fails on mismatched heads. -/
theorem isPrefixOf_false (p c : Char) (ps rest : Str) (h : p ≠ c) :
    (p :: ps).isPrefixOf (c :: rest) = false := by
  simp [List.isPrefixOf_cons₂, h]

/-- A successful `orderedMatch` means the line starts with a digit. -/
theorem orderedMatch_head (l : Str) (nt : Nat × Str)
    (h : orderedMatch l = some nt) :
    ∃ c rest, l = c :: rest ∧ c.isDigit = true := by
  cases l with
  | nil => exact absurd h (by simp [orderedMatch])
  | cons c rest =>
    refine ⟨c, rest, rfl, ?_⟩
    by_contra hd
    have hd' : c.isDigit = false := by
      cases hc : c.isDigit
      · rfl
      · exact absurd hc hd
    unfold orderedMatch at h
    rw [show (c :: rest).takeWhile Char.isDigit = [] by
      simp [List.takeWhile_cons, hd']] at h
    simp at h

/-- A successful `headingMatch` means the line starts with `#`. -/
theorem headingMatch_some_head (c : Char) (rest : Str) (kt : Nat × Str)
    (h : headingMatch (c :: rest) = some kt) : c = '#' := by
  by_contra hc
  rw [headingMatch_none c rest hc] at h
  exact Option.noConfusion h

/-! ## C9: the divider rule accepts mixed marker characters -/

/-- Counterexample to C9 as stated: the line `-*_` mixes the three marker
characters, yet the scanner emits a `Divider` block for it. -/
theorem c9_counterexample : markdown_to_blocks ("-*_".toList) = [Block.divider] := by
  decide

/-- Claim C9 (amended): on a single line, the scanner emits exactly a
`Divider` for a line whose rstripped form is three or more characters
drawn from `-`, `*`, `_` — in any mixture, uniformity not required —
followed only by whitespace. -/
theorem c9_divider_amended (l : Str) (h : l.contains '\n' = false) :
    markdown_to_blocks l = [Block.divider] ↔ isDividerLine (pyRstrip l) = true := by
  rw [markdown_to_blocks_single l h]
  cases hline : pyRstrip l with
  | nil =>
    simp [blocksLoop, hline, isDividerLine]
  | cons c rest =>
    cases hh : headingMatch (c :: rest) with
    | some kt =>
      have hc := headingMatch_some_head c rest kt hh
      subst hc
      have hdiv : isDividerLine ('#' :: rest) = false :=
        isDividerLine_false '#' rest (by decide)
      simp [blocksLoop, hline, hh, hdiv]
    | none =>
      cases hd : isDividerLine (c :: rest) with
      | true =>
        simp [blocksLoop, hline, hh, hd]
      | false =>
        cases hb : bulletMatch (c :: rest) with
        | some t =>
          simp [blocksLoop, hline, hh, hd, hb]
        | none =>
          cases ho : orderedMatch (c :: rest) with
          | some nt =>
            by_cases hcond : (nt.1 ≤ 3 && !(isSubsection (pyStrip (c :: rest)))) = true
            · simp [blocksLoop, hline, hh, hd, hb, ho, hcond]
            · simp [blocksLoop, hline, hh, hd, hb, ho, hcond]
              split
              · simp
              · split <;> simp
          | none =>
            simp [blocksLoop, hline, hh, hd, hb, ho]
            split
            · simp
            · split <;> simp

/-- Witness for C9's amended statement at a mixed three-character line. -/
theorem c9_divider_amended_witness :
    ("-*-".toList).contains '\n' = false ∧
      (markdown_to_blocks ("-*-".toList) = [Block.divider] ↔
        isDividerLine (pyRstrip ("-*-".toList)) = true) :=
  ⟨by decide, c9_divider_amended ("-*-".toList) (by decide)⟩

/-! ## C8: the paragraph accumulator -/

/-- Counterexample to C8 as stated: `1. x` matches the ordered-list
dispatch rule, yet the scanner folds it into the preceding paragraph
because the continuation test only excludes first characters
`#`, `-`, `*`, `+`, `>`. -/
theorem c8_counterexample :
    markdown_to_blocks ("hello\n1. x".toList) =
      [Block.paragraph (PText.fmt (FormattedText.rich ("hello 1. x".toList)
        [⟨"hello 1. x".toList, Style.plain⟩]))] := by
  decide

/-- The scanner's default (paragraph) step, shared by the dispatch
theorems below: when every other rule fails, the paragraph is the current
line plus the following `paraCont` lines, stripped and space-joined, run
through the inline span parser. -/
theorem blocksLoop_paragraph_step (fuel : Nat) (rawLine : Str) (rest : List Str)
    (hne : (pyRstrip rawLine).isEmpty = false)
    (hh : headingMatch (pyRstrip rawLine) = none)
    (hd : isDividerLine (pyRstrip rawLine) = false)
    (hb : bulletMatch (pyRstrip rawLine) = none)
    (ho : ∀ nt, orderedMatch (pyRstrip rawLine) = some nt →
      (nt.1 ≤ 3 && !(isSubsection (pyStrip (pyRstrip rawLine)))) = false)
    (hf : ("```".toList).isPrefixOf (pyRstrip rawLine) = false)
    (hq : ("> ".toList).isPrefixOf (pyRstrip rawLine) = false)
    (hp : (pyRstrip rawLine).contains '|' = false) :
    blocksLoop (fuel + 1) (rawLine :: rest) =
      Block.paragraph (PText.fmt (parse_inline_formatting
        (List.intercalate [' '] (pyRstrip rawLine :: (rest.takeWhile paraCont).map pyStrip)))) ::
        blocksLoop fuel (rest.drop (rest.takeWhile paraCont).length) := by
  simp at hf hq hp
  cases ho2 : orderedMatch (pyRstrip rawLine) with
  | some nt =>
    have hcond := ho nt ho2
    simp [blocksLoop, hne, hh, hd, hb, ho2, hcond, hf, hq, hp]
  | none =>
    simp [blocksLoop, hne, hh, hd, hb, ho2, hf, hq, hp]

/-- Claim C8 (amended): in the scanner's default case, the paragraph is
the current (rstripped) line plus all immediately following lines that are
non-blank and whose stripped text does not start with `#`, `-`, `*`, `+`
or `>` (ordered-list, code-fence, table and `_`-divider lines are still
absorbed), each stripped, joined with single spaces, and run through the
inline span parser; scanning resumes after the absorbed lines. -/
theorem c8_paragraph_amended (fuel : Nat) (rawLine : Str) (rest : List Str)
    (hne : (pyRstrip rawLine).isEmpty = false)
    (hh : headingMatch (pyRstrip rawLine) = none)
    (hd : isDividerLine (pyRstrip rawLine) = false)
    (hb : bulletMatch (pyRstrip rawLine) = none)
    (ho : ∀ nt, orderedMatch (pyRstrip rawLine) = some nt →
      (nt.1 ≤ 3 && !(isSubsection (pyStrip (pyRstrip rawLine)))) = false)
    (hf : ("```".toList).isPrefixOf (pyRstrip rawLine) = false)
    (hq : ("> ".toList).isPrefixOf (pyRstrip rawLine) = false)
    (hp : (pyRstrip rawLine).contains '|' = false) :
    blocksLoop (fuel + 1) (rawLine :: rest) =
      Block.paragraph (PText.fmt (parse_inline_formatting
        (List.intercalate [' '] (pyRstrip rawLine :: (rest.takeWhile paraCont).map pyStrip)))) ::
        blocksLoop fuel (rest.drop (rest.takeWhile paraCont).length) :=
  blocksLoop_paragraph_step fuel rawLine rest hne hh hd hb ho hf hq hp

/-- Witness for C8's amended statement at `hello` followed by `1. x`. -/
theorem c8_paragraph_amended_witness :
    blocksLoop 2 ["hello".toList, "1. x".toList] =
      Block.paragraph (PText.fmt (parse_inline_formatting
        (List.intercalate [' ']
          (pyRstrip ("hello".toList) ::
            (["1. x".toList].takeWhile paraCont).map pyStrip)))) ::
        blocksLoop 1 (["1. x".toList].drop (["1. x".toList].takeWhile paraCont).length) :=
  c8_paragraph_amended 1 ("hello".toList) ["1. x".toList]
    (by decide) (by decide) (by decide) (by decide)
    (fun nt hnt => by
      rw [show orderedMatch (pyRstrip ("hello".toList)) = none by decide] at hnt
      exact Option.noConfusion hnt)
    (by decide) (by decide) (by decide)

/-! ## C6: the ordered-list start gate -/

/-- A whitespace character is not a digit. -/
theorem ws_not_digit (c : Char) (h : isPySpace c = true) : c.isDigit = false := by
  unfold isPySpace at h
  simp only [Bool.or_eq_true, decide_eq_true_eq] at h
  rcases h with ((((h | h) | h) | h) | h) | h <;>
    · subst h
      decide

/-- `subsecFromDigits` skips a leading digit run. -/
theorem subsecFromDigits_digits :
    ∀ (ds : Str), (∀ c ∈ ds, c.isDigit = true) →
      ∀ s, subsecFromDigits (ds ++ s) = subsecFromDigits s := by
  intro ds
  induction ds with
  | nil => intro _ s; rfl
  | cons d ds ih =>
    intro h s
    have hd : d.isDigit = true := h d (by simp)
    simp only [List.cons_append, subsecFromDigits, hd, if_true]
    exact ih (fun c hc => h c (by simp [hc])) s

/-- A digit run followed by `.` and then whitespace (or the end) is not a
subsection number. -/
theorem subsec_digits_dot (ds : Str) (hds : ∀ c ∈ ds, c.isDigit = true)
    (hne : ds ≠ []) (s : Str)
    (hs : s = [] ∨ ∃ w t, s = w :: t ∧ isPySpace w = true) :
    isSubsection (ds ++ '.' :: s) = false := by
  cases ds with
  | nil => exact absurd rfl hne
  | cons d ds' =>
    have hd : d.isDigit = true := hds d (by simp)
    simp only [List.cons_append, isSubsection, hd, Bool.true_and]
    rw [subsecFromDigits_digits ds' (fun c hc => hds c (by simp [hc])) ('.' :: s)]
    have hdot : ('.' : Char).isDigit = false := by decide
    simp only [subsecFromDigits, hdot, if_false, if_pos rfl]
    rcases hs with hs | ⟨w, t, hs, hw⟩
    · subst hs
      rfl
    · subst hs
      simp [subsecAfterDot, ws_not_digit w hw]

/-- Structure of a successful `orderedMatch`: a nonempty digit run, a dot,
then a whitespace character. -/
theorem orderedMatch_decomp (l : Str) (num : Nat) (txt : Str)
    (h : orderedMatch l = some (num, txt)) :
    ∃ w r, (∀ c ∈ l.takeWhile Char.isDigit, c.isDigit = true) ∧
      l.takeWhile Char.isDigit ≠ [] ∧
      l = l.takeWhile Char.isDigit ++ '.' :: w :: r ∧ isPySpace w = true := by
  unfold orderedMatch at h
  by_cases hde : (l.takeWhile Char.isDigit).isEmpty
  · rw [if_pos hde] at h
    exact Option.noConfusion h
  · rw [if_neg hde] at h
    have hsplit := takeWhile_append_drop Char.isDigit l
    split at h
    · rename_i c2 r2 hdrop
      split at h
      · rename_i hc2
        subst hc2
        cases hws : wsSplitText r2 with
        | none =>
          rw [hws] at h
          exact Option.noConfusion h
        | some t =>
          unfold wsSplitText at hws
          by_cases hrun : (r2.takeWhile isPySpace).isEmpty
          · rw [if_pos hrun] at hws
            exact Option.noConfusion hws
          · cases r2 with
            | nil => simp at hrun
            | cons w r =>
              have hw : isPySpace w = true := by
                by_contra hwf
                have hwf' : isPySpace w = false := by
                  cases hx : isPySpace w
                  · rfl
                  · exact absurd hx hwf
                rw [show (w :: r).takeWhile isPySpace = [] by
                  simp [List.takeWhile_cons, hwf']] at hrun
                simp at hrun
              refine ⟨w, r, fun c hc => List.mem_takeWhile_imp hc, ?_, ?_, hw⟩
              · intro habs
                rw [habs] at hde
                simp at hde
              · conv_lhs => rw [hsplit]
                rw [hdrop]
      · exact Option.noConfusion h
    · exact Option.noConfusion h

/-- `pyRstrip` over an append: strip the tail; if it vanishes, continue
into the front. -/
theorem pyRstrip_append (a b : Str) :
    pyRstrip (a ++ b) = if pyRstrip b = [] then pyRstrip a else a ++ pyRstrip b := by
  unfold pyRstrip
  rw [List.reverse_append, List.dropWhile_append]
  by_cases hb : (b.reverse.dropWhile isPySpace).isEmpty
  · rw [if_pos hb]
    have hbe : (b.reverse.dropWhile isPySpace).reverse = [] := by
      simp only [List.isEmpty_iff] at hb
      rw [hb]
      rfl
    rw [if_pos hbe]
  · rw [if_neg hb]
    have hbe : ¬ (b.reverse.dropWhile isPySpace).reverse = [] := by
      simp only [List.isEmpty_iff] at hb
      simp [hb]
    rw [if_neg hbe, List.reverse_append, List.reverse_reverse]

/-- `pyRstrip` of a single character. -/
theorem pyRstrip_singleton (c : Char) :
    pyRstrip [c] = if isPySpace c then [] else [c] := by
  by_cases hc : isPySpace c
  · simp [pyRstrip, hc]
  · simp [pyRstrip, hc]

/-- `pyLstrip` keeps a line whose first character is not whitespace. -/
theorem pyLstrip_cons (c : Char) (t : Str) (h : isPySpace c = false) :
    pyLstrip (c :: t) = c :: t := by
  simp [pyLstrip, List.dropWhile_cons, h]

/-- A digit is not whitespace. -/
theorem digit_not_ws (c : Char) (h : c.isDigit = true) : isPySpace c = false := by
  cases hx : isPySpace c
  · rfl
  · rw [ws_not_digit c hx] at h
    exact Bool.noConfusion h

/-- The subsection heuristic can never fire on a line the ordered-list
pattern accepted: after the digits and the dot comes whitespace, never
another digit. -/
theorem ordered_not_subsection (l : Str) (num : Nat) (txt : Str)
    (h : orderedMatch l = some (num, txt)) :
    isSubsection (pyStrip l) = false := by
  obtain ⟨w, r, hds, hne, hl, hw⟩ := orderedMatch_decomp l num txt h
  rw [hl]
  have hassoc : l.takeWhile Char.isDigit ++ '.' :: w :: r =
      (l.takeWhile Char.isDigit ++ ['.']) ++ (w :: r) := by simp
  rw [hassoc]
  unfold pyStrip
  rw [pyRstrip_append]
  have hdot : pyRstrip (['.'] : Str) = ['.'] := by decide
  have hfront : pyRstrip (l.takeWhile Char.isDigit ++ ['.']) =
      l.takeWhile Char.isDigit ++ ['.'] := by
    rw [pyRstrip_append, hdot]
    rw [if_neg (by simp)]
  obtain ⟨d, ds', hdds⟩ : ∃ d ds', l.takeWhile Char.isDigit = d :: ds' := by
    cases hx : l.takeWhile Char.isDigit with
    | nil => exact absurd hx hne
    | cons d ds' => exact ⟨d, ds', rfl⟩
  have hdd : d.isDigit = true := hds d (by rw [hdds]; simp)
  by_cases hrb : pyRstrip (w :: r) = []
  · rw [if_pos hrb, hfront]
    rw [hdds, List.cons_append, pyLstrip_cons d (ds' ++ ['.']) (digit_not_ws d hdd)]
    rw [← List.cons_append, ← hdds]
    have : l.takeWhile Char.isDigit ++ ['.'] = l.takeWhile Char.isDigit ++ '.' :: [] := rfl
    rw [this]
    exact subsec_digits_dot _ hds hne [] (Or.inl rfl)
  · rw [if_neg hrb]
    have hhead : ∃ t', pyRstrip (w :: r) = w :: t' := by
      have := pyRstrip_append [w] r
      simp only [List.singleton_append] at this
      by_cases hr : pyRstrip r = []
      · rw [if_pos hr, pyRstrip_singleton, if_pos hw] at this
        exact absurd this hrb
      · rw [if_neg hr] at this
        exact ⟨pyRstrip r, this⟩
    obtain ⟨t', ht'⟩ := hhead
    rw [ht']
    rw [hdds, List.cons_append, List.cons_append,
      pyLstrip_cons d (ds' ++ ['.'] ++ w :: t') (digit_not_ws d hdd)]
    rw [← List.cons_append, ← List.cons_append, ← hdds]
    have : (l.takeWhile Char.isDigit ++ ['.']) ++ w :: t' =
        l.takeWhile Char.isDigit ++ '.' :: (w :: t') := by simp
    rw [this]
    exact subsec_digits_dot _ hds hne (w :: t') (Or.inr ⟨w, t', rfl, hw⟩)

/-- Counterexample to C6 as stated: a first line with leading number
greater than 3 does not always fall through to *paragraph* handling — the
table rule still runs, so `6. a|b` followed by a separator line becomes a
`Table`, not a paragraph. -/
theorem c6_counterexample :
    markdown_to_blocks ("6. a|b\n|--|\nx|y".toList) =
      [Block.table ["6. a".toList, ['b']] [[['x'], ['y']]]] := by
  decide

/-- Claim C6 (amended): a `<digits>. <text>` line starts an `OrderedList`
exactly when its leading number is at most 3 (the multi-level subsection
test never fires on a line the ordered pattern accepted); once started,
subsequent `<digits>. <text>` lines with any digit value are consumed as
items until a non-matching line; a first line with number greater than 3
is not a list start and — when the line contains no `|` — falls through to
paragraph handling, so `6. Deep dive` alone parses as a paragraph with
text `6. Deep dive`. -/
theorem c6_ordered_list_start :
    (∀ (fuel : Nat) (rawLine : Str) (rest : List Str) (num : Nat) (txt : Str),
      orderedMatch (pyRstrip rawLine) = some (num, txt) →
      (pyRstrip rawLine).contains '|' = false →
      blocksLoop (fuel + 1) (rawLine :: rest) =
        (if num ≤ 3 then
          Block.ordered_list (txt :: (rest.takeWhile (fun s => (orderedMatch s).isSome)).map
            (fun s => ((orderedMatch s).getD (0, [])).2)) ::
            blocksLoop fuel (rest.dropWhile (fun s => (orderedMatch s).isSome))
        else
          Block.paragraph (PText.fmt (parse_inline_formatting
            (List.intercalate [' ']
              (pyRstrip rawLine :: (rest.takeWhile paraCont).map pyStrip)))) ::
            blocksLoop fuel (rest.drop (rest.takeWhile paraCont).length))) ∧
    (∀ (l : Str) (num : Nat) (txt : Str), orderedMatch l = some (num, txt) →
      isSubsection (pyStrip l) = false) ∧
    markdown_to_blocks ("6. Deep dive".toList) =
      [Block.paragraph (PText.fmt (FormattedText.rich ("6. Deep dive".toList)
        [⟨"6. Deep dive".toList, Style.plain⟩]))] ∧
    markdown_to_blocks ("1. x\n9. y".toList) = [Block.ordered_list [['x'], ['y']]] := by
  refine ⟨?_, ordered_not_subsection, by decide, by decide⟩
  intro fuel rawLine rest num txt ho hp
  obtain ⟨c, rest', hshape, hdig⟩ := orderedMatch_head (pyRstrip rawLine) (num, txt) ho
  obtain ⟨hc1, hc2, hc3, hc4, hc5, hc6, hc7⟩ := digit_ne_marker c hdig
  have hne : (pyRstrip rawLine).isEmpty = false := by rw [hshape]; rfl
  have hh : headingMatch (pyRstrip rawLine) = none := by
    rw [hshape]
    exact headingMatch_none c rest' hc1
  have hd : isDividerLine (pyRstrip rawLine) = false := by
    rw [hshape]
    exact isDividerLine_false c rest' (by simp [hc2, hc3, hc4])
  have hb : bulletMatch (pyRstrip rawLine) = none := by
    rw [hshape]
    exact bulletMatch_none c rest' (by simp [hc2, hc3, hc5])
  have hsub := ordered_not_subsection (pyRstrip rawLine) num txt ho
  by_cases hnum : num ≤ 3
  · rw [if_pos hnum]
    simp [blocksLoop, hne, hh, hd, hb, ho, hsub, hnum]
  · rw [if_neg hnum]
    have hf : ("```".toList).isPrefixOf (pyRstrip rawLine) = false := by
      rw [hshape, show ("```".toList) = backtickChar :: [backtickChar, backtickChar] by decide]
      exact isPrefixOf_false backtickChar c _ _ (fun he => hc6 he.symm)
    have hq : ("> ".toList).isPrefixOf (pyRstrip rawLine) = false := by
      rw [hshape, show ("> ".toList) = '>' :: [' '] by decide]
      exact isPrefixOf_false '>' c _ _ (fun he => hc7 he.symm)
    refine blocksLoop_paragraph_step fuel rawLine rest hne hh hd hb ?_ hf hq hp
    intro nt hnt
    rw [ho] at hnt
    have hnteq : nt = (num, txt) := by
      cases hnt
      rfl
    subst hnteq
    simp [hsub, hnum]

/-- Witness for C6's amended statement: `1. x` followed by `9. y` starts a
list and consumes the 9-numbered line. -/
theorem c6_ordered_list_start_witness :
    blocksLoop 1 ["1. x".toList, "9. y".toList] =
      (if 1 ≤ 3 then
        Block.ordered_list (['x'] :: (["9. y".toList].takeWhile
            (fun s => (orderedMatch s).isSome)).map
          (fun s => ((orderedMatch s).getD (0, [])).2)) ::
          blocksLoop 0 (["9. y".toList].dropWhile (fun s => (orderedMatch s).isSome))
      else
        Block.paragraph (PText.fmt (parse_inline_formatting
          (List.intercalate [' ']
            (pyRstrip ("1. x".toList) :: (["9. y".toList].takeWhile paraCont).map pyStrip)))) ::
          blocksLoop 0 (["9. y".toList].drop (["9. y".toList].takeWhile paraCont).length)) :=
  c6_ordered_list_start.1 0 ("1. x".toList) ["9. y".toList] 1 ['x']
    (by decide) (by decide)

/-! ## C7: the table lookahead -/

/-- Counterexample to C7 as stated: the following line `|-|` contains `|`
and `-`, yet the scanner does not treat `x|y` as a table — the separator
test requires two consecutive dashes — and both lines fold into one
paragraph. -/
theorem c7_counterexample :
    markdown_to_blocks ("x|y\n|-|".toList) =
      [Block.paragraph (PText.fmt (FormattedText.rich ("x|y |-|".toList)
        [⟨"x|y |-|".toList, Style.plain⟩]))] := by
  decide

/-- Claim C7 (amended): a line containing `|` (with nonempty cells, no
`|--` prefix, and failing the earlier dispatch rules) is scanned as a
`Table` exactly when the immediately following line contains `|` and two
consecutive dashes `--` *and* at least one subsequent row line with
nonempty cells follows; the first line's pipe cells become the headers and
the collected row cells the rows.  When the lookahead fails, the line
falls through to paragraph handling. -/
theorem c7_table_lookahead_amended :
    (∀ (fuel : Nat) (rawLine next : Str) (rest2 : List Str),
      (pyRstrip rawLine).isEmpty = false →
      headingMatch (pyRstrip rawLine) = none →
      isDividerLine (pyRstrip rawLine) = false →
      bulletMatch (pyRstrip rawLine) = none →
      (∀ nt, orderedMatch (pyRstrip rawLine) = some nt →
        (nt.1 ≤ 3 && !(isSubsection (pyStrip (pyRstrip rawLine)))) = false) →
      ("```".toList).isPrefixOf (pyRstrip rawLine) = false →
      ("> ".toList).isPrefixOf (pyRstrip rawLine) = false →
      (pyRstrip rawLine).contains '|' = true →
      ("|--".toList).isPrefixOf (pyRstrip rawLine) = false →
      pipeCells (pyRstrip rawLine) ≠ [] →
      next.contains '|' = true →
      containsSub ("--".toList) next = true →
      ((rest2.takeWhile (fun s => s.contains '|' && !(containsSub ("--".toList) s))).map
        pipeCells).filter (fun r => !r.isEmpty) ≠ [] →
      blocksLoop (fuel + 1) (rawLine :: next :: rest2) =
        Block.table (pipeCells (pyRstrip rawLine))
          (((rest2.takeWhile (fun s => s.contains '|' && !(containsSub ("--".toList) s))).map
            pipeCells).filter (fun r => !r.isEmpty)) ::
          blocksLoop fuel
            (rest2.drop (rest2.takeWhile
              (fun s => s.contains '|' && !(containsSub ("--".toList) s))).length)) ∧
    (∀ (fuel : Nat) (rawLine next : Str) (rest2 : List Str),
      (pyRstrip rawLine).isEmpty = false →
      headingMatch (pyRstrip rawLine) = none →
      isDividerLine (pyRstrip rawLine) = false →
      bulletMatch (pyRstrip rawLine) = none →
      (∀ nt, orderedMatch (pyRstrip rawLine) = some nt →
        (nt.1 ≤ 3 && !(isSubsection (pyStrip (pyRstrip rawLine)))) = false) →
      ("```".toList).isPrefixOf (pyRstrip rawLine) = false →
      ("> ".toList).isPrefixOf (pyRstrip rawLine) = false →
      (next.contains '|' && containsSub ("--".toList) next) = false →
      blocksLoop (fuel + 1) (rawLine :: next :: rest2) =
        Block.paragraph (PText.fmt (parse_inline_formatting
          (List.intercalate [' ']
            (pyRstrip rawLine ::
              ((next :: rest2).takeWhile paraCont).map pyStrip)))) ::
          blocksLoop fuel
            ((next :: rest2).drop ((next :: rest2).takeWhile paraCont).length)) := by
  constructor
  · intro fuel rawLine next rest2 hne hh hd hb ho hf hq hpipe hnp hcells hsep hdd hrows
    simp at hf hq hpipe hsep hnp hdd hrows
    cases ho2 : orderedMatch (pyRstrip rawLine) with
    | some nt =>
      have hcond := ho nt ho2
      simp [blocksLoop, hne, hh, hd, hb, ho2, hcond, hf, hq, hpipe, hnp, hcells, hsep, hdd,
        hrows, Nat.one_add, List.drop_succ_cons]
      rw [if_neg (by simpa using hrows)]
      simp [List.drop_succ_cons]
    | none =>
      simp [blocksLoop, hne, hh, hd, hb, ho2, hf, hq, hpipe, hnp, hcells, hsep, hdd, hrows,
        Nat.one_add, List.drop_succ_cons]
      rw [if_neg (by simpa using hrows)]
      simp [List.drop_succ_cons]
  · intro fuel rawLine next rest2 hne hh hd hb ho hf hq hsep
    simp at hf hq
    rw [Bool.and_eq_false_iff] at hsep
    cases hsep with
    | inl h1 =>
      simp at h1
      cases ho2 : orderedMatch (pyRstrip rawLine) with
      | some nt =>
        have hcond := ho nt ho2
        simp [blocksLoop, hne, hh, hd, hb, ho2, hcond, hf, hq, h1]
      | none =>
        simp [blocksLoop, hne, hh, hd, hb, ho2, hf, hq, h1]
    | inr h1 =>
      simp at h1
      cases ho2 : orderedMatch (pyRstrip rawLine) with
      | some nt =>
        have hcond := ho nt ho2
        simp [blocksLoop, hne, hh, hd, hb, ho2, hcond, hf, hq, h1]
      | none =>
        simp [blocksLoop, hne, hh, hd, hb, ho2, hf, hq, h1]

/-- Witness for C7's amended statement: `a|b`, separator `|--|`, one data
row `1|2` produce a table block. -/
theorem c7_table_lookahead_amended_witness :
    blocksLoop 1 ["a|b".toList, "|--|".toList, "1|2".toList] =
      Block.table (pipeCells (pyRstrip ("a|b".toList)))
        (((["1|2".toList].takeWhile
            (fun s => s.contains '|' && !(containsSub ("--".toList) s))).map
          pipeCells).filter (fun r => !r.isEmpty)) ::
        blocksLoop 0
          (["1|2".toList].drop (["1|2".toList].takeWhile
            (fun s => s.contains '|' && !(containsSub ("--".toList) s))).length) :=
  c7_table_lookahead_amended.1 0 ("a|b".toList) ("|--|".toList) ["1|2".toList]
    (by decide) (by decide) (by decide) (by decide)
    (fun nt hnt => by
      rw [show orderedMatch (pyRstrip ("a|b".toList)) = none by decide] at hnt
      exact Option.noConfusion hnt)
    (by decide) (by decide) (by decide) (by decide) (by decide) (by decide) (by decide)
    (by decide)
